import Mathlib

/-!
Verification development for the UkiModbusManager bridge engine
(UkiModbusManager.py, ModbusMap.py).

The Python engine is shallowly embedded: dictionaries keyed by board
address become total functions `Nat → _`, the two serial ports become an
explicit two-field record, fallible operations (dictionary `[0]` indexing
that can raise `IndexError`, attribute access on `None`) become `Except`
computations, and wall-clock times (`time.time()`) become rationals.
Machine integers: register offsets and addresses are `Nat`; command values
are `Int` (they are decoded signed from the wire).
-/

namespace Uki

/-! ### Constants (UkiModbusManager.py lines 43-75, ModbusMap.py) -/

def MAX_RETRIES : Nat := 3

def INCOMING_MSG_HEARTBEAT_TIMEOUT : Rat := 5

/-- Debug mode to send a write every loop, regardless of whether the
register already holds that value (source line 71: `SEND_EVERY_WRITE = True`). -/
def SEND_EVERY_WRITE : Bool := true

def MAX_MOTOR_SPEED : Int := 60

def HEARTBEAT_ADDRESS : Nat := 240

/-! Register map entries used by the engine (ModbusMap.py `MB_MAP`). -/

def MB_MOTOR_SETPOINT : Nat := 200

def MB_ESTOP : Nat := 208

def MB_RESET_ESTOP : Nat := 209

/-! ### Data model

An actuator entry of the YAML configuration file (`board_config['actuators']`):
address, owning port tag (the strings `"Left"` / `"Right"`), enabled flag.
The named safety parameters are not needed by the claims below. -/

structure Actuator where
  address : Nat
  port : String
  enabled : Bool
deriving DecidableEq

/-- One `UkiModbus` port object: per-address write queue (dict address →
list of (offset, value)), per-address shadow modbus map (dict address →
defaultdict offset → value; `none` stands for the Python `[]`-default /
`None`-invalidated entries), and the serial-port enabled flag. -/
structure PortState where
  write_queue : Nat → List (Nat × Int)
  shadow_map : Nat → Nat → Option Int
  enabled : Bool

/-- The mutable state of a `UkiModbusManager` object that the claims are
about. -/
structure ManagerState where
  board_config : List Actuator
  enabled_boards : List Nat
  heartbeat_armed : Bool
  last_incoming_msg_time : Rat
  udp_input_enabled : Bool
  major_poll_index : Nat
  minor_poll_index : Nat
  left : PortState
  right : PortState

inductive PortId where
  | left
  | right
deriving DecidableEq

/-- Source lines 184-193 (`__init__`): the active board list is the list of
addresses of enabled actuators, in configuration order. -/
def enabled_boards_of (cfg : List Actuator) : List Nat :=
  (cfg.filter (fun actuator => actuator.enabled)).map (fun actuator => actuator.address)

/-- Source line 218: `filter(lambda board: board['address'] == address, ...)[0]`.
Indexing `[0]` into an empty filter result raises `IndexError`, embedded as
`Except.error`.  A port tag other than `"Left"`/`"Right"` yields `none`
(the Python function returns `None`). -/
def get_port_for_address (cfg : List Actuator) (address : Nat) :
    Except Unit (Option PortId) :=
  match (cfg.filter (fun board => board.address == address)).head? with
  | none => .error ()
  | some board_details =>
    .ok (if board_details.port = "Left" then some .left
         else if board_details.port = "Right" then some .right
         else none)

/-- The port a board address currently routes to, when routing succeeds. -/
def routedCfg (cfg : List Actuator) (address : Nat) : Option PortId :=
  match get_port_for_address cfg address with
  | .ok (some p) => some p
  | _ => none

def getPort (s : ManagerState) (p : PortId) : PortState :=
  match p with
  | .left => s.left
  | .right => s.right

def setPort (s : ManagerState) (p : PortId) (port : PortState) : ManagerState :=
  match p with
  | .left => { s with left := port }
  | .right => { s with right := port }

/-- The pending write list of a board, read through the board's current
routing (`port.write_queue[address]`). -/
def wq (s : ManagerState) (address : Nat) : List (Nat × Int) :=
  match routedCfg s.board_config address with
  | some p => (getPort s p).write_queue address
  | none => []

/-- The shadow map entry of a board/offset, read through the board's
current routing. -/
def shadow (s : ManagerState) (address offset : Nat) : Option Int :=
  match routedCfg s.board_config address with
  | some p => (getPort s p).shadow_map address offset
  | none => none

def port_append (p : PortState) (address : Nat) (entry : Nat × Int) : PortState :=
  { p with write_queue := fun a =>
      if a = address then p.write_queue a ++ [entry] else p.write_queue a }

/-- `self.get_port_for_address(address).write_queue[address].append(entry)`:
routing failure (`IndexError`, or attribute access on a `None` port)
propagates as `Except.error`. -/
def append_write (s : ManagerState) (address : Nat) (entry : Nat × Int) :
    Except Unit ManagerState :=
  match get_port_for_address s.board_config address with
  | .error e => .error e
  | .ok none => .error ()
  | .ok (some pid) => .ok (setPort s pid (port_append (getPort s pid) address entry))

/-! ### Command sanitizer (source lines 281-292) -/

/-- `sanity_check_command`: cap the motor setpoint to `±MAX_MOTOR_SPEED`;
every other offset passes through unchanged. -/
def sanity_check_command (write_offset : Nat) (write_value : Int) : Nat × Int :=
  if write_offset = MB_MOTOR_SETPOINT then
    if write_value > MAX_MOTOR_SPEED then (write_offset, MAX_MOTOR_SPEED)
    else if write_value < -MAX_MOTOR_SPEED then (write_offset, -MAX_MOTOR_SPEED)
    else (write_offset, write_value)
  else (write_offset, write_value)

/-! ### Broadcast helpers (source lines 268-279) -/

/-- Queue the given entry to every address in `boards`, routing each through
the current configuration (the loop bodies of `estop_all_boards` and
`reset_all_boards`). -/
def queue_to_boards (entry : Nat × Int) : List Nat → ManagerState → Except Unit ManagerState
  | [], s => .ok s
  | a :: rest, s =>
    match append_write s a entry with
    | .error e => .error e
    | .ok s1 => queue_to_boards entry rest s1

/-- `estop_all_boards` (lines 268-272): queue `(MB_ESTOP, 1)` to every
enabled board. -/
def estop_all_boards (s : ManagerState) : Except Unit ManagerState :=
  queue_to_boards (MB_ESTOP, 1) s.enabled_boards s

/-- `reset_all_boards` (lines 274-279): queue `(MB_RESET_ESTOP, 0x5050)` to
every enabled board, then disarm the heartbeat. -/
def reset_all_boards (s : ManagerState) : Except Unit ManagerState :=
  match queue_to_boards (MB_RESET_ESTOP, 0x5050) s.enabled_boards s with
  | .error e => .error e
  | .ok s1 => .ok { s1 with heartbeat_armed := false }

/-! ### Heartbeat fragment of the poll loop (source lines 489-500) -/

/-- One tick's heartbeat handling: `valid` is the return value of
`process_incoming_packet` and `now` the current `time.time()`.  A valid
inbound message refreshes the timestamp and arms the heartbeat; then, if
the heartbeat is armed and more than `INCOMING_MSG_HEARTBEAT_TIMEOUT`
seconds have elapsed since the last valid message, an estop is queued to
every enabled board. -/
def heartbeat_step (s : ManagerState) (now : Rat) (valid : Bool) : Except Unit ManagerState :=
  let s1 := if valid then { s with last_incoming_msg_time := now, heartbeat_armed := true } else s
  if s1.heartbeat_armed = true ∧
      INCOMING_MSG_HEARTBEAT_TIMEOUT < now - s1.last_incoming_msg_time then
    estop_all_boards s1
  else .ok s1

/-! ### Inbound UDP frame processing (source lines 294-352)

Python byte-string slices `b[i:j]` become `(List.drop i b).take (j - i)`;
`int.from_bytes` on the (possibly shorter than 2 bytes) slices becomes the
two functions below. -/

/-- `int.from_bytes(slice, 'little', signed=False)` for a slice of at most
two bytes (an empty slice decodes to 0). -/
def from_bytes_le_u : List Nat → Nat
  | [] => 0
  | [b0] => b0
  | b0 :: b1 :: _ => b0 + 256 * b1

/-- `int.from_bytes(slice, 'little', signed=True)` for a slice of at most
two bytes (an empty slice decodes to 0). -/
def from_bytes_le_s : List Nat → Int
  | [] => 0
  | [b0] => if 128 ≤ b0 then (b0 : Int) - 256 else (b0 : Int)
  | b0 :: b1 :: _ =>
    if 32768 ≤ b0 + 256 * b1 then ((b0 + 256 * b1 : Nat) : Int) - 65536
    else ((b0 + 256 * b1 : Nat) : Int)

/-- The offset/value pair loop of `process_incoming_packet` (lines 321-327):
`for pos in range(2, len(packet), 4)` over the bytes after the address,
offset from `packet[pos:pos+2]` unsigned, value from `packet[pos+2:pos+4]`
signed.  Slices are clipped at the end of the packet, so a trailing
2-byte field yields an offset with value 0. -/
def parse_pairs : List Nat → List (Nat × Int)
  | [] => []
  | [b0] => [(from_bytes_le_u [b0], 0)]
  | [b0, b1] => [(from_bytes_le_u [b0, b1], 0)]
  | [b0, b1, b2] => [(from_bytes_le_u [b0, b1], from_bytes_le_s [b2])]
  | b0 :: b1 :: b2 :: b3 :: rest =>
    (from_bytes_le_u [b0, b1], from_bytes_le_s [b2, b3]) :: parse_pairs rest

/-- Handling of one decoded (offset, value) pair (lines 329-344): broadcast
address 0 accepts only estop (any value) and reset with value `0x5050`;
any other address gets the sanitized pair appended to its write queue.
The `Bool` is the accumulated `valid_msg_received` flag. -/
def process_pair (addr : Nat) (sf : ManagerState × Bool) (p : Nat × Int) :
    Except Unit (ManagerState × Bool) :=
  if addr = 0 then
    if p.1 = MB_ESTOP then
      match estop_all_boards sf.1 with
      | .error e => .error e
      | .ok s1 => .ok (s1, true)
    else if p.1 = MB_RESET_ESTOP ∧ p.2 = 0x5050 then
      match reset_all_boards sf.1 with
      | .error e => .error e
      | .ok s1 => .ok (s1, true)
    else .ok sf
  else
    match append_write sf.1 addr (sanity_check_command p.1 p.2) with
    | .error e => .error e
    | .ok s1 => .ok (s1, true)

def process_pairs (addr : Nat) : ManagerState × Bool → List (Nat × Int) →
    Except Unit (ManagerState × Bool)
  | sf, [] => .ok sf
  | sf, p :: rest =>
    match process_pair addr sf p with
    | .error e => .error e
    | .ok sf1 => process_pairs addr sf1 rest

/-- Processing of one inbound UDP datagram (lines 305-344): odd-length
packets are dropped, the first two bytes are the unsigned little-endian
write address, `HEARTBEAT_ADDRESS` is a pure heartbeat sink, addresses
outside `enabled_boards + [0]` are dropped with a warning, and otherwise
the pair loop runs. -/
def process_one_packet (s : ManagerState) (bs : List Nat) :
    Except Unit (ManagerState × Bool) :=
  if s.udp_input_enabled = true then
    if bs.length % 2 ≠ 0 then .ok (s, false)
    else
      let write_address := from_bytes_le_u (bs.take 2)
      if write_address = HEARTBEAT_ADDRESS then .ok (s, true)
      else if write_address ∈ s.enabled_boards ++ [0] then
        process_pairs write_address (s, false) (parse_pairs (bs.drop 2))
      else .ok (s, false)
  else .ok (s, false)

/-! ### Write queue flush (source lines 365-416)

The bus is abstracted as `bus address offset value = some (ackOffset,
ackValue)` for a successful `write_reg` and `none` for a failed one. -/

/-- The inner while loop of `flush_write_queue` for one board, processing
the popped entries (the queue reversed, most recent first): a first-seen
offset is recorded in `written` and written out unless the shadow map
already holds the value (dead branch while `SEND_EVERY_WRITE` is true); a
failed write invalidates the shadow entry.  Returns the writes issued, the
response frames sent (lines 396-413), and the final shadow entry map for
this board. -/
def flush_entries (addr : Nat) (bus : Nat → Nat → Int → Option (Nat × Nat)) :
    List (Nat × Int) → List Nat → (Nat → Option Int) →
    List (Nat × Int) × List (List Nat) × (Nat → Option Int)
  | [], _, sh => ([], [], sh)
  | (o, v) :: rest, written, sh =>
    if o ∈ written then flush_entries addr bus rest written sh
    else
      if SEND_EVERY_WRITE = true ∨ ¬ sh o = some v then
        match bus addr o v with
        | some resp =>
          let r := flush_entries addr bus rest (written ++ [o]) sh
          ((o, v) :: r.1, [addr, resp.1, resp.2] :: r.2.1, r.2.2)
        | none =>
          let r := flush_entries addr bus rest (written ++ [o])
            (fun x => if x = o then none else sh x)
          ((o, v) :: r.1, [addr, 10002, o] :: r.2.1, r.2.2)
      else
        flush_entries addr bus rest (written ++ [o]) sh

/-- The per-write outbound frame (lines 396-407): acknowledgement
`[address, ackOffset, ackValue]` on success, `[address, 10002, offset]` on
a bus error. -/
def write_response_frame (addr : Nat) (bus : Nat → Nat → Int → Option (Nat × Nat))
    (e : Nat × Int) : List Nat :=
  match bus addr e.1 e.2 with
  | some resp => [addr, resp.1, resp.2]
  | none => [addr, 10002, e.1]

/-- Flushing one board: route it, drain its queue most-recent-first, adopt
the board's updated shadow entries. -/
def flush_address (bus : Nat → Nat → Int → Option (Nat × Nat)) (a : Nat) (s : ManagerState) :
    Except Unit (ManagerState × List (Nat × Int) × List (List Nat)) :=
  match get_port_for_address s.board_config a with
  | .error e => .error e
  | .ok none => .error ()
  | .ok (some pid) =>
    let p := getPort s pid
    let r := flush_entries a bus (p.write_queue a).reverse [] (p.shadow_map a)
    .ok (setPort s pid
          { p with write_queue := fun b => if b = a then [] else p.write_queue b,
                   shadow_map := fun b => if b = a then r.2.2 else p.shadow_map b },
         r.1, r.2.1)

def flush_boards (bus : Nat → Nat → Int → Option (Nat × Nat)) :
    List Nat → ManagerState →
    Except Unit (ManagerState × List (Nat × List (Nat × Int)) × List (List Nat))
  | [], s => .ok (s, [], [])
  | a :: rest, s =>
    match flush_address bus a s with
    | .error e => .error e
    | .ok (s1, ws, fs) =>
      match flush_boards bus rest s1 with
      | .error e => .error e
      | .ok (s2, wss, fss) => .ok (s2, (a, ws) :: wss, fs ++ fss)

/-- `clear_write_queue` (line 116-117): reinitialise a port's write queue
to empty lists. -/
def clear_write_queue (p : PortState) : PortState :=
  { p with write_queue := fun _ => [] }

/-- `flush_write_queue` (lines 365-416): drain every enabled board's queue,
then clear both ports' queues.  Returns the per-board writes issued and
the outbound frames. -/
def flush_write_queue (bus : Nat → Nat → Int → Option (Nat × Nat)) (s : ManagerState) :
    Except Unit (ManagerState × List (Nat × List (Nat × Int)) × List (List Nat)) :=
  match flush_boards bus s.enabled_boards s with
  | .error e => .error e
  | .ok (s1, wss, fss) =>
    .ok ({ s1 with left := clear_write_queue s1.left, right := clear_write_queue s1.right },
         wss, fss)

/-! ### Configuration reload fragment of the poll loop (source lines 479-484) -/

/-- The major-wrap block of `main_poll_loop`: when the major cursor has
swept every board, reset it and re-read the configuration file
(`read_board_config_file`, lines 207-215: a read or parse failure, here
`none`, keeps the previous configuration).  Nothing else is recomputed:
in particular `enabled_boards` is only ever computed in `__init__`. -/
def reload_step (s : ManagerState) (newConfig : Option (List Actuator)) : ManagerState :=
  if s.enabled_boards.length ≤ s.major_poll_index then
    { s with major_poll_index := 0, board_config := newConfig.getD s.board_config }
  else s

/-! ### Outbound telemetry framing (source lines 227-266) -/

/-- `entry.to_bytes(2, byteorder='little')` (defined when the entry is
below 65536). -/
def to_bytes_le2 (n : Nat) : List Nat := [n % 256, n / 256 % 256]

/-- Line 259: encode each 16-bit field little-endian and flatten. -/
def encode_packet : List Nat → List Nat
  | [] => []
  | x :: rest => to_bytes_le2 x ++ encode_packet rest

/-- The interleaving loop of `query_and_forward` (lines 238-242): for each
register position append the offset, then the value. -/
def interleave_offsets (start_offset : Nat) : List Nat → List Nat
  | [] => []
  | r :: rest => start_offset :: r :: interleave_offsets (start_offset + 1) rest

/-- A successful read's telemetry record (lines 236-242): the address
followed by (offset, value) interleaved. -/
def telemetry_packet (address start_offset : Nat) (regs : List Nat) : List Nat :=
  address :: interleave_offsets start_offset regs

/-- A failed read's error record (line 253). -/
def error_packet (address start_offset end_offset : Nat) : List Nat :=
  [address, 10000, start_offset, 10001, end_offset]

/-- The expected decoded pair list for a read of `regs` starting at
`start_offset`: offsets in order, paired with the read values. -/
def offset_value_pairs (start_offset : Nat) : List Nat → List (Nat × Nat)
  | [] => []
  | r :: rest => (start_offset, r) :: offset_value_pairs (start_offset + 1) rest

/-- Modelled from the spec: the telemetry consumer's decoder is not part of
this repository (the outbound UDP frames are read by external tooling), so
it is modelled from the wire-format description: fields are fixed-width
2-byte little-endian; a frame is the address followed by (offset, value)
pairs; addresses, offsets and telemetry register values are unsigned. -/
def decode_tpairs : List Nat → List (Nat × Nat)
  | b0 :: b1 :: b2 :: b3 :: rest => (b0 + 256 * b1, b2 + 256 * b3) :: decode_tpairs rest
  | _ => []

/-- Modelled from the spec: decode an outbound frame back into the address
and its (offset, value) pairs. -/
def decode_frame (bs : List Nat) : Option (Nat × List (Nat × Nat)) :=
  if bs.length % 2 = 0 ∧ 2 ≤ bs.length then
    some (from_bytes_le_u (bs.take 2), decode_tpairs (bs.drop 2))
  else none

/-! ### Transport retry loop (source lines 119-144)

One bus attempt (`self.mb_conn.execute`) either returns a response, raises
`ModbusError` (the slave answered with a Modbus exception code; caught and
logged, the loop simply retries), raises `ModbusInvalidResponseError`
(caught, `retry_count` incremented), or raises some other exception
(logged and re-raised).  A call is modelled against the finite list of
outcomes the bus produces for its successive attempts. -/

inductive BusOutcome where
  | ok (response : Nat × Nat)
  | modbusError
  | invalidResponse
  | otherException
deriving DecidableEq

inductive AccessResult where
  | returned (response : Option (Nat × Nat))
  | raised
  | starved
deriving DecidableEq

/-- The `while (response == None) and (retry_count < self.retries)` loop of
`access_regs`, consuming one outcome per attempt.  Returns the loop result
and the number of attempts made; `starved` means the loop was still
running when the supplied outcome list ran out. -/
def access_loop (retries : Nat) : List BusOutcome → Nat → AccessResult × Nat
  | [], retry_count =>
    if retries ≤ retry_count then (.returned none, 0) else (.starved, 0)
  | o :: rest, retry_count =>
    if retries ≤ retry_count then (.returned none, 0)
    else match o with
      | .ok resp => (.returned (some resp), 1)
      | .modbusError =>
        let r := access_loop retries rest retry_count
        (r.1, r.2 + 1)
      | .invalidResponse =>
        let r := access_loop retries rest (retry_count + 1)
        (r.1, r.2 + 1)
      | .otherException => (.raised, 1)

/-- `access_regs` for an enabled/disabled transport: result, attempts made,
and number of `time.sleep(self.interframe_delay)` calls executed (the
single sleep on line 142 runs after the loop, unless an exception
propagated out). -/
def access_regs (enabled : Bool) (retries : Nat) (outcomes : List BusOutcome) :
    AccessResult × Nat × Nat :=
  if enabled then
    let r := access_loop retries outcomes 0
    (r.1, r.2, match r.1 with | .returned _ => 1 | _ => 0)
  else (.returned none, 0, 1)

/-! ### Concrete states used by the witnesses -/

def portW : PortState :=
  { write_queue := fun _ => [], shadow_map := fun _ _ => none, enabled := true }

def cfgW : List Actuator :=
  [{ address := 1, port := "Left", enabled := true },
   { address := 2, port := "Right", enabled := true }]

def stateW : ManagerState :=
  { board_config := cfgW, enabled_boards := [1, 2], heartbeat_armed := false,
    last_incoming_msg_time := 0, udp_input_enabled := true,
    major_poll_index := 0, minor_poll_index := 0, left := portW, right := portW }

def stateHB : ManagerState := { stateW with heartbeat_armed := true }

def stateQ : ManagerState :=
  { stateW with left :=
      { portW with write_queue := fun a =>
          if a = 1 then [(200, 10), (208, 1), (200, 20)] else [] } }

def busW : Nat → Nat → Int → Option (Nat × Nat) := fun _ o _ => some (o, 1)

def cfg3 : List Actuator := [{ address := 1, port := "Left", enabled := true }]

def state3 : ManagerState := { stateW with major_poll_index := 2 }

end Uki

namespace Uki

/-! ### Basic routing and queueing lemmas -/

theorem setPort_board_config (s : ManagerState) (pid : PortId) (p : PortState) :
    (setPort s pid p).board_config = s.board_config := by
  cases pid <;> rfl

theorem setPort_enabled_boards (s : ManagerState) (pid : PortId) (p : PortState) :
    (setPort s pid p).enabled_boards = s.enabled_boards := by
  cases pid <;> rfl

theorem setPort_heartbeat_armed (s : ManagerState) (pid : PortId) (p : PortState) :
    (setPort s pid p).heartbeat_armed = s.heartbeat_armed := by
  cases pid <;> rfl

theorem setPort_last_time (s : ManagerState) (pid : PortId) (p : PortState) :
    (setPort s pid p).last_incoming_msg_time = s.last_incoming_msg_time := by
  cases pid <;> rfl

theorem setPort_udp (s : ManagerState) (pid : PortId) (p : PortState) :
    (setPort s pid p).udp_input_enabled = s.udp_input_enabled := by
  cases pid <;> rfl

theorem getPort_setPort_same (s : ManagerState) (pid : PortId) (p : PortState) :
    getPort (setPort s pid p) pid = p := by
  cases pid <;> rfl

theorem getPort_setPort_other (s : ManagerState) (pid qid : PortId) (p : PortState)
    (h : ¬ qid = pid) : getPort (setPort s pid p) qid = getPort s qid := by
  cases pid <;> cases qid <;> first | rfl | exact absurd rfl h

theorem wq_setPort (s : ManagerState) (pid : PortId) (p : PortState) (b : Nat) :
    wq (setPort s pid p) b =
      match routedCfg s.board_config b with
      | some q => (getPort (setPort s pid p) q).write_queue b
      | none => [] := by
  rw [wq, setPort_board_config]

theorem routed_of_isSome (cfg : List Actuator) (a : Nat)
    (h : (routedCfg cfg a).isSome = true) : ∃ pid, routedCfg cfg a = some pid := by
  cases hr : routedCfg cfg a with
  | none => rw [hr] at h; simp at h
  | some pid => exact ⟨pid, rfl⟩

theorem get_port_of_routed (cfg : List Actuator) (a : Nat) (pid : PortId)
    (h : routedCfg cfg a = some pid) : get_port_for_address cfg a = .ok (some pid) := by
  rw [routedCfg] at h
  cases hg : get_port_for_address cfg a with
  | error e => rw [hg] at h; simp at h
  | ok op =>
    cases op with
    | none => rw [hg] at h; simp at h
    | some q =>
      rw [hg] at h
      simp at h
      exact congrArg (fun z => Except.ok (some z)) h

theorem wq_disarm (s : ManagerState) (c : Nat) :
    wq { s with heartbeat_armed := false } c = wq s c := rfl

/-- Routing succeeds after `append_write`: the configuration is untouched. -/
theorem append_write_ok (s : ManagerState) (a : Nat) (e : Nat × Int) (pid : PortId)
    (h : routedCfg s.board_config a = some pid) :
    ∃ s', append_write s a e = .ok s' ∧
      s'.board_config = s.board_config ∧
      s'.enabled_boards = s.enabled_boards ∧
      s'.heartbeat_armed = s.heartbeat_armed ∧
      s'.last_incoming_msg_time = s.last_incoming_msg_time ∧
      s'.udp_input_enabled = s.udp_input_enabled ∧
      wq s' a = wq s a ++ [e] ∧
      (∀ b, ¬ b = a → wq s' b = wq s b) := by
  have hg := get_port_of_routed s.board_config a pid h
  refine ⟨setPort s pid (port_append (getPort s pid) a e), ?_, ?_, ?_, ?_, ?_, ?_, ?_, ?_⟩
  · rw [append_write, hg]
  · exact setPort_board_config ..
  · exact setPort_enabled_boards ..
  · exact setPort_heartbeat_armed ..
  · exact setPort_last_time ..
  · exact setPort_udp ..
  · rw [wq_setPort, h]
    simp only [getPort_setPort_same, port_append]
    rw [wq, h]
    simp
  · intro b hb
    rw [wq_setPort, wq]
    cases hr : routedCfg s.board_config b with
    | none => rfl
    | some q =>
      simp only
      by_cases hq : q = pid
      · subst hq
        rw [getPort_setPort_same, port_append]
        simp [hb]
      · rw [getPort_setPort_other s pid q _ hq]

/-- The broadcast loops: queueing an entry to a list of distinct, routable
boards succeeds and appends the entry to exactly those boards' queues. -/
theorem queue_to_boards_ok (e : Nat × Int) :
    ∀ (boards : List Nat) (s : ManagerState),
    (∀ a ∈ boards, (routedCfg s.board_config a).isSome = true) →
    boards.Nodup →
    ∃ s', queue_to_boards e boards s = .ok s' ∧
      s'.board_config = s.board_config ∧
      s'.enabled_boards = s.enabled_boards ∧
      s'.heartbeat_armed = s.heartbeat_armed ∧
      s'.last_incoming_msg_time = s.last_incoming_msg_time ∧
      s'.udp_input_enabled = s.udp_input_enabled ∧
      (∀ b ∈ boards, wq s' b = wq s b ++ [e]) ∧
      (∀ b, b ∉ boards → wq s' b = wq s b)
  | [], s, _, _ => ⟨s, rfl, rfl, rfl, rfl, rfl, rfl, by simp, fun _ _ => rfl⟩
  | a :: rest, s, hroute, hnd => by
    obtain ⟨pid, hpid⟩ := routed_of_isSome _ _ (hroute a (by simp))
    obtain ⟨s1, hs1, hcfg1, hen1, hhb1, hlt1, hudp1, hwa1, hwo1⟩ :=
      append_write_ok s a e pid hpid
    have hroute1 : ∀ b ∈ rest, (routedCfg s1.board_config b).isSome = true := by
      intro b hb
      rw [hcfg1]
      exact hroute b (by simp [hb])
    have hnd1 : rest.Nodup := hnd.of_cons
    have hanr : a ∉ rest := by
      rcases List.nodup_cons.mp hnd with ⟨ha, _⟩
      exact ha
    obtain ⟨s2, hs2, hcfg2, hen2, hhb2, hlt2, hudp2, hwin2, hwout2⟩ :=
      queue_to_boards_ok e rest s1 hroute1 hnd1
    refine ⟨s2, ?_, by rw [hcfg2, hcfg1], by rw [hen2, hen1], by rw [hhb2, hhb1],
      by rw [hlt2, hlt1], by rw [hudp2, hudp1], ?_, ?_⟩
    · simp only [queue_to_boards, hs1]
      exact hs2
    · intro b hb
      rcases List.mem_cons.mp hb with hb | hb
      · subst hb
        rw [hwout2 b hanr, hwa1]
      · have hba : ¬ b = a := by
          intro hba
          exact hanr (hba ▸ hb)
        rw [hwin2 b hb, hwo1 b hba]
    · intro b hb
      have hba : ¬ b = a := fun hba => hb (by simp [hba])
      have hbr : b ∉ rest := fun hbr => hb (by simp [hbr])
      rw [hwout2 b hbr, hwo1 b hba]

theorem estop_all_boards_ok (s : ManagerState)
    (hroute : ∀ a ∈ s.enabled_boards, (routedCfg s.board_config a).isSome = true)
    (hnd : s.enabled_boards.Nodup) :
    ∃ s', estop_all_boards s = .ok s' ∧
      s'.board_config = s.board_config ∧
      s'.enabled_boards = s.enabled_boards ∧
      s'.heartbeat_armed = s.heartbeat_armed ∧
      s'.last_incoming_msg_time = s.last_incoming_msg_time ∧
      s'.udp_input_enabled = s.udp_input_enabled ∧
      (∀ b ∈ s.enabled_boards, wq s' b = wq s b ++ [(MB_ESTOP, 1)]) ∧
      (∀ b, b ∉ s.enabled_boards → wq s' b = wq s b) :=
  queue_to_boards_ok (MB_ESTOP, 1) s.enabled_boards s hroute hnd

theorem reset_all_boards_ok (s : ManagerState)
    (hroute : ∀ a ∈ s.enabled_boards, (routedCfg s.board_config a).isSome = true)
    (hnd : s.enabled_boards.Nodup) :
    ∃ s', reset_all_boards s = .ok s' ∧
      s'.board_config = s.board_config ∧
      s'.enabled_boards = s.enabled_boards ∧
      s'.heartbeat_armed = false ∧
      s'.last_incoming_msg_time = s.last_incoming_msg_time ∧
      s'.udp_input_enabled = s.udp_input_enabled ∧
      (∀ b ∈ s.enabled_boards, wq s' b = wq s b ++ [(MB_RESET_ESTOP, 0x5050)]) ∧
      (∀ b, b ∉ s.enabled_boards → wq s' b = wq s b) := by
  obtain ⟨s1, hs1, hcfg1, hen1, hhb1, hlt1, hudp1, hwin1, hwout1⟩ :=
    queue_to_boards_ok (MB_RESET_ESTOP, 0x5050) s.enabled_boards s hroute hnd
  refine ⟨{ s1 with heartbeat_armed := false }, ?_, hcfg1, hen1, rfl, hlt1, hudp1, ?_, ?_⟩
  · simp only [reset_all_boards, hs1]
  · intro b hb
    rw [wq_disarm]
    exact hwin1 b hb
  · intro b hb
    rw [wq_disarm]
    exact hwout1 b hb

/-- Claim C1: when the heartbeat is armed and more than the configured
timeout (5s) has elapsed since the last valid inbound message, the tick
queues an estop write for every board in the active set; the heartbeat
stays armed (and the timestamp untouched), so any later tick without a
valid inbound message queues the estops again; and an explicit reset
disarms the heartbeat, after which ticks without valid inbound messages do
nothing. -/
theorem heartbeat_timeout_estops (s : ManagerState) (now : Rat)
    (hroute : ∀ a ∈ s.enabled_boards, (routedCfg s.board_config a).isSome = true)
    (hnd : s.enabled_boards.Nodup)
    (harm : s.heartbeat_armed = true)
    (ht : INCOMING_MSG_HEARTBEAT_TIMEOUT < now - s.last_incoming_msg_time) :
    ∃ s', heartbeat_step s now false = .ok s' ∧
      (∀ b ∈ s.enabled_boards, wq s' b = wq s b ++ [(MB_ESTOP, 1)]) ∧
      s'.heartbeat_armed = true ∧
      s'.enabled_boards = s.enabled_boards ∧
      s'.board_config = s.board_config ∧
      s'.last_incoming_msg_time = s.last_incoming_msg_time ∧
      (∀ now', now ≤ now' →
        ∃ s'', heartbeat_step s' now' false = .ok s'' ∧
          ∀ b ∈ s'.enabled_boards, wq s'' b = wq s' b ++ [(MB_ESTOP, 1)]) ∧
      (∃ r, reset_all_boards s' = .ok r ∧ r.heartbeat_armed = false ∧
        ∀ t, heartbeat_step r t false = .ok r) := by
  obtain ⟨s', hs', hcfg, hen, hhb, hlt, hudp, hwin, hwout⟩ := estop_all_boards_ok s hroute hnd
  have hstep : heartbeat_step s now false = estop_all_boards s := by
    simp [heartbeat_step, harm, ht]
  have hroute' : ∀ a ∈ s'.enabled_boards, (routedCfg s'.board_config a).isSome = true := by
    intro a ha
    rw [hcfg]
    exact hroute a (hen ▸ ha)
  have hnd' : s'.enabled_boards.Nodup := hen ▸ hnd
  have harm' : s'.heartbeat_armed = true := hhb.trans harm
  refine ⟨s', hstep.trans hs', hwin, harm', hen, hcfg, hlt, ?_, ?_⟩
  · intro now' hnow
    obtain ⟨s'', hs'', _, _, _, _, _, hwin', _⟩ := estop_all_boards_ok s' hroute' hnd'
    have ht' : INCOMING_MSG_HEARTBEAT_TIMEOUT < now' - s'.last_incoming_msg_time := by
      rw [hlt]
      have : now - s.last_incoming_msg_time ≤ now' - s.last_incoming_msg_time := by
        linarith
      linarith
    have hstep' : heartbeat_step s' now' false = estop_all_boards s' := by
      simp [heartbeat_step, harm', ht']
    exact ⟨s'', hstep'.trans hs'', hwin'⟩
  · obtain ⟨r, hr, _, _, hrhb, _, _, _, _⟩ := reset_all_boards_ok s' hroute' hnd'
    refine ⟨r, hr, hrhb, ?_⟩
    intro t
    simp [heartbeat_step, hrhb]

/-- Concrete instance of the heartbeat-timeout claim: a two-board state,
armed, last valid message at time 0, tick at time 10. -/
theorem heartbeat_timeout_estops_witness :
    ∃ s', heartbeat_step stateHB 10 false = .ok s' ∧
      (∀ b ∈ stateHB.enabled_boards, wq s' b = wq stateHB b ++ [(MB_ESTOP, 1)]) ∧
      s'.heartbeat_armed = true ∧
      s'.enabled_boards = stateHB.enabled_boards ∧
      s'.board_config = stateHB.board_config ∧
      s'.last_incoming_msg_time = stateHB.last_incoming_msg_time ∧
      (∀ now', (10 : Rat) ≤ now' →
        ∃ s'', heartbeat_step s' now' false = .ok s'' ∧
          ∀ b ∈ s'.enabled_boards, wq s'' b = wq s' b ++ [(MB_ESTOP, 1)]) ∧
      (∃ r, reset_all_boards s' = .ok r ∧ r.heartbeat_armed = false ∧
        ∀ t, heartbeat_step r t false = .ok r) :=
  heartbeat_timeout_estops stateHB 10 (by decide) (by decide) rfl (by
    norm_num [INCOMING_MSG_HEARTBEAT_TIMEOUT, stateHB, stateW])

/-- Claim C6: a broadcast (address 0) pair queues an estop to every active
board when the offset is `MB_ESTOP`, whatever the value; queues a reset to
every board (and disarms the heartbeat) exactly when the offset is
`MB_RESET_ESTOP` and the value is `0x5050`; and otherwise changes nothing
and accepts nothing. -/
theorem broadcast_pair_cases (s : ManagerState)
    (hroute : ∀ a ∈ s.enabled_boards, (routedCfg s.board_config a).isSome = true)
    (hnd : s.enabled_boards.Nodup) :
    (∀ (v : Int) (flag : Bool), ∃ s',
      process_pair 0 (s, flag) (MB_ESTOP, v) = .ok (s', true) ∧
      (∀ b ∈ s.enabled_boards, wq s' b = wq s b ++ [(MB_ESTOP, 1)]) ∧
      s'.heartbeat_armed = s.heartbeat_armed) ∧
    (∀ flag : Bool, ∃ s',
      process_pair 0 (s, flag) (MB_RESET_ESTOP, 0x5050) = .ok (s', true) ∧
      (∀ b ∈ s.enabled_boards, wq s' b = wq s b ++ [(MB_RESET_ESTOP, 0x5050)]) ∧
      s'.heartbeat_armed = false) ∧
    (∀ (o : Nat) (v : Int) (flag : Bool), ¬ o = MB_ESTOP →
      ¬ (o = MB_RESET_ESTOP ∧ v = 0x5050) →
      process_pair 0 (s, flag) (o, v) = .ok (s, flag)) := by
  refine ⟨?_, ?_, ?_⟩
  · intro v flag
    obtain ⟨s', hs', _, _, hhb, _, _, hwin, _⟩ := estop_all_boards_ok s hroute hnd
    exact ⟨s', by simp [process_pair, hs'], hwin, hhb⟩
  · intro flag
    obtain ⟨s', hs', _, _, hhb, _, _, hwin, _⟩ := reset_all_boards_ok s hroute hnd
    refine ⟨s', ?_, hwin, hhb⟩
    rw [process_pair]
    simp [MB_ESTOP, MB_RESET_ESTOP, hs']
  · intro o v flag ho hov
    rw [process_pair]
    simp [ho, hov]

/-- Concrete instances of the broadcast claim on a two-board state: an
estop with an arbitrary value, a reset with value `0x5050`, and a rejected
broadcast pair (offset 210). -/
theorem broadcast_pair_cases_witness :
    (∃ s', process_pair 0 (stateW, false) (MB_ESTOP, 7) = .ok (s', true) ∧
      (∀ b ∈ stateW.enabled_boards, wq s' b = wq stateW b ++ [(MB_ESTOP, 1)]) ∧
      s'.heartbeat_armed = stateW.heartbeat_armed) ∧
    (∃ s', process_pair 0 (stateW, false) (MB_RESET_ESTOP, 0x5050) = .ok (s', true) ∧
      (∀ b ∈ stateW.enabled_boards, wq s' b = wq stateW b ++ [(MB_RESET_ESTOP, 0x5050)]) ∧
      s'.heartbeat_armed = false) ∧
    process_pair 0 (stateW, false) (210, 5) = .ok (stateW, false) :=
  ⟨(broadcast_pair_cases stateW (by decide) (by decide)).1 7 false,
   (broadcast_pair_cases stateW (by decide) (by decide)).2.1 false,
   (broadcast_pair_cases stateW (by decide) (by decide)).2.2 210 5 false (by decide)
     (by decide)⟩

/-- Claim C10: routing a board address that is absent from the currently
loaded configuration raises an unhandled `IndexError` (the `[0]` on the
empty filter result), and this is reachable because a configuration reload
that drops an actuator leaves the active board set unchanged. -/
theorem get_port_for_address_index_error (cfg : List Actuator) (a : Nat) (s : ManagerState)
    (h : ∀ b ∈ cfg, ¬ b.address = a)
    (ha : a ∈ s.enabled_boards)
    (hm : s.enabled_boards.length ≤ s.major_poll_index) :
    get_port_for_address cfg a = .error () ∧
    a ∈ (reload_step s (some cfg)).enabled_boards ∧
    get_port_for_address (reload_step s (some cfg)).board_config a = .error () := by
  have hfil : cfg.filter (fun board => board.address == a) = [] := by
    rw [List.filter_eq_nil_iff]
    intro b hb
    simp [h b hb]
  have herr : get_port_for_address cfg a = .error () := by
    rw [get_port_for_address, hfil]
    rfl
  have hrel : (reload_step s (some cfg)).board_config = cfg := by
    rw [reload_step, if_pos hm]
    rfl
  have hren : (reload_step s (some cfg)).enabled_boards = s.enabled_boards := by
    rw [reload_step]
    split <;> rfl
  refine ⟨herr, hren ▸ ha, ?_⟩
  rw [hrel]
  exact herr

/-- Concrete instance of the `IndexError` claim: board 2 is active, the
reloaded configuration only lists board 1. -/
theorem get_port_for_address_index_error_witness :
    get_port_for_address cfg3 2 = .error () ∧
    2 ∈ (reload_step state3 (some cfg3)).enabled_boards ∧
    get_port_for_address (reload_step state3 (some cfg3)).board_config 2 = .error () :=
  get_port_for_address_index_error cfg3 2 state3 (by decide) (by decide) (by decide)

/-- Claim C3 refuted: a configuration reload does not rebuild the active
board list from the enabled entries of the newly read configuration.  With
board 2 still active, reloading a configuration that only enables board 1
leaves the active list at `[1, 2]`, while the source's own construction
rule (`enabled_boards_of`, from `__init__`) would give `[1]`. -/
theorem reload_keeps_active_list_counterexample :
    (reload_step state3 (some cfg3)).enabled_boards = [1, 2] ∧
    enabled_boards_of cfg3 = [1] ∧
    ¬ (reload_step state3 (some cfg3)).enabled_boards = enabled_boards_of cfg3 := by
  refine ⟨rfl, rfl, ?_⟩
  decide

/-- Claim C3 (amended): on a major-cycle wrap the configuration file is
re-read and replaces `board_config` (kept unchanged on a failed read) and
the major cursor is reset to 0, but the active board list and the minor
cursor are never recomputed from the new configuration; off the wrap the
step does nothing. -/
theorem reload_step_spec (s : ManagerState) (cfg : List Actuator) :
    (∀ c, (reload_step s c).enabled_boards = s.enabled_boards) ∧
    (∀ c, (reload_step s c).minor_poll_index = s.minor_poll_index) ∧
    (s.enabled_boards.length ≤ s.major_poll_index →
      (reload_step s (some cfg)).board_config = cfg ∧
      (reload_step s none).board_config = s.board_config ∧
      (reload_step s (some cfg)).major_poll_index = 0) ∧
    (s.major_poll_index < s.enabled_boards.length → reload_step s (some cfg) = s) := by
  refine ⟨?_, ?_, ?_, ?_⟩
  · intro c
    rw [reload_step]
    split <;> rfl
  · intro c
    rw [reload_step]
    split <;> rfl
  · intro hm
    refine ⟨?_, ?_, ?_⟩ <;> rw [reload_step, if_pos hm] <;> rfl
  · intro hm
    rw [reload_step, if_neg (by omega)]

/-- Concrete instance of the amended reload claim: the reload at major
index 2 of a two-board state swaps in the new configuration but keeps the
active list. -/
theorem reload_step_spec_witness :
    (reload_step state3 (some cfg3)).enabled_boards = state3.enabled_boards ∧
    (reload_step state3 (some cfg3)).board_config = cfg3 ∧
    (reload_step state3 (some cfg3)).major_poll_index = 0 :=
  ⟨(reload_step_spec state3 cfg3).1 (some cfg3),
   ((reload_step_spec state3 cfg3).2.2.1 (by decide)).1,
   ((reload_step_spec state3 cfg3).2.2.1 (by decide)).2.2⟩

/-- Claim C5 refuted: a `ModbusError` (Modbus exception response) does not
increment `retry_count`, so a call can make more bus attempts than the
configured maximum: three exception responses followed by a success make
4 > 3 attempts; and only one inter-frame sleep happens per call, not one
after every attempt. -/
theorem access_regs_retry_counterexample :
    access_regs true MAX_RETRIES
      [.modbusError, .modbusError, .modbusError, .ok (5, 7)] =
      (.returned (some (5, 7)), 4, 1) ∧
    MAX_RETRIES < 4 ∧ ¬ (1 : Nat) = 4 := by
  decide

theorem access_loop_invalid_bound :
    ∀ (outcomes : List BusOutcome) (retries rc : Nat),
    (∀ o ∈ outcomes, o = .invalidResponse) →
    (access_loop retries outcomes rc).2 ≤ retries - rc
  | [], retries, rc, _ => by
    rw [access_loop]
    split <;> simp
  | o :: rest, retries, rc, h => by
    have ho : o = .invalidResponse := h o (by simp)
    subst ho
    have ih := access_loop_invalid_bound rest retries (rc + 1)
      (fun x hx => h x (by simp [hx]))
    rw [access_loop]
    by_cases hrc : retries ≤ rc
    · simp [hrc]
    · simp only [if_neg hrc]
      omega

/-- Claim C5 (amended): the number of bus attempts in one call is bounded
by the configured maximum only for invalid-response failures (which are
the ones that consume the retry budget), and at most one inter-frame sleep
happens per call — after the loop, not after every attempt. -/
theorem access_regs_bounded_for_invalid (retries : Nat) (outcomes : List BusOutcome)
    (h : ∀ o ∈ outcomes, o = .invalidResponse) :
    (access_regs true retries outcomes).2.1 ≤ retries ∧
    (access_regs true retries outcomes).2.2 ≤ 1 := by
  have hb := access_loop_invalid_bound outcomes retries 0 h
  constructor
  · rw [access_regs]
    simpa using le_trans hb (by omega)
  · rw [access_regs]
    simp only [if_pos rfl]
    cases (access_loop retries outcomes 0).1 <;> simp

/-- Concrete instance of the amended retry claim: four invalid responses
against a budget of three. -/
theorem access_regs_bounded_for_invalid_witness :
    (access_regs true MAX_RETRIES
      [.invalidResponse, .invalidResponse, .invalidResponse, .invalidResponse]).2.1 ≤
        MAX_RETRIES ∧
    (access_regs true MAX_RETRIES
      [.invalidResponse, .invalidResponse, .invalidResponse, .invalidResponse]).2.2 ≤ 1 :=
  access_regs_bounded_for_invalid MAX_RETRIES
    [.invalidResponse, .invalidResponse, .invalidResponse, .invalidResponse] (by decide)

/-! ### Flush lemmas -/

/-- The writes selected by the per-board flush loop, filtered to one
offset: the first occurrence in pop order (i.e. the most recent enqueue)
wins, offsets already recorded in `written` are skipped entirely.  Because
`SEND_EVERY_WRITE` is true, the shadow map never suppresses a write. -/
theorem flush_entries_filter (addr : Nat) (bus : Nat → Nat → Int → Option (Nat × Nat))
    (o : Nat) :
    ∀ (l : List (Nat × Int)) (written : List Nat) (sh : Nat → Option Int),
    ((flush_entries addr bus l written sh).1.filter (fun e => e.1 == o)) =
      (if o ∈ written then []
       else match l.find? (fun e => e.1 == o) with
         | some e => [e]
         | none => [])
  | [], written, sh => by
    rw [flush_entries]
    simp only [List.find?_nil, List.filter_nil]
    split <;> rfl
  | (p, v) :: rest, written, sh => by
    rw [flush_entries]
    by_cases hp : p ∈ written
    · rw [if_pos hp, flush_entries_filter addr bus o rest written sh]
      by_cases ho : o ∈ written
      · rw [if_pos ho, if_pos ho]
      · rw [if_neg ho, if_neg ho,
          @List.find?_cons_of_neg _ (fun e => e.1 == o) (p, v) rest
            (by simp only [beq_iff_eq]; intro h; exact ho (h ▸ hp))]
    · rw [if_neg hp,
        if_pos (show SEND_EVERY_WRITE = true ∨ ¬ sh p = some v from Or.inl rfl)]
      cases hbus : bus addr p v with
      | some resp =>
        simp only
        by_cases hpo : p = o
        · rw [List.filter_cons_of_pos (by simp [hpo]),
            flush_entries_filter addr bus o rest (written ++ [p]) sh,
            if_pos (show o ∈ written ++ [p] by simp [hpo]),
            if_neg (show ¬ o ∈ written by rw [← hpo]; exact hp),
            @List.find?_cons_of_pos _ (fun e => e.1 == o) (p, v) rest (by simp [hpo])]
        · rw [List.filter_cons_of_neg (by simp [hpo]),
            flush_entries_filter addr bus o rest (written ++ [p]) sh]
          by_cases ho : o ∈ written
          · rw [if_pos (by simp [ho]), if_pos ho]
          · rw [if_neg (by simp [ho, Ne.symm hpo]), if_neg ho,
              @List.find?_cons_of_neg _ (fun e => e.1 == o) (p, v) rest (by simp [hpo])]
      | none =>
        simp only
        by_cases hpo : p = o
        · rw [List.filter_cons_of_pos (by simp [hpo]),
            flush_entries_filter addr bus o rest (written ++ [p]) _,
            if_pos (show o ∈ written ++ [p] by simp [hpo]),
            if_neg (show ¬ o ∈ written by rw [← hpo]; exact hp),
            @List.find?_cons_of_pos _ (fun e => e.1 == o) (p, v) rest (by simp [hpo])]
        · rw [List.filter_cons_of_neg (by simp [hpo]),
            flush_entries_filter addr bus o rest (written ++ [p]) _]
          by_cases ho : o ∈ written
          · rw [if_pos (by simp [ho]), if_pos ho]
          · rw [if_neg (by simp [ho, Ne.symm hpo]), if_neg ho,
              @List.find?_cons_of_neg _ (fun e => e.1 == o) (p, v) rest (by simp [hpo])]

/-- Each selected write produces exactly one outbound frame, built by
`write_response_frame` from the bus response. -/
theorem flush_entries_frames (addr : Nat) (bus : Nat → Nat → Int → Option (Nat × Nat)) :
    ∀ (l : List (Nat × Int)) (written : List Nat) (sh : Nat → Option Int),
    (flush_entries addr bus l written sh).2.1 =
      (flush_entries addr bus l written sh).1.map (write_response_frame addr bus)
  | [], _, _ => rfl
  | (p, v) :: rest, written, sh => by
    rw [flush_entries]
    by_cases hp : p ∈ written
    · rw [if_pos hp]
      exact flush_entries_frames addr bus rest written sh
    · rw [if_neg hp,
        if_pos (show SEND_EVERY_WRITE = true ∨ ¬ sh p = some v from Or.inl rfl)]
      cases hbus : bus addr p v with
      | some resp =>
        simp only [List.map_cons]
        rw [flush_entries_frames addr bus rest (written ++ [p]) sh, write_response_frame, hbus]
      | none =>
        simp only [List.map_cons]
        rw [flush_entries_frames addr bus rest (written ++ [p]) _, write_response_frame, hbus]

/-- Flushing one routable board succeeds, empties that board's pending
list, and leaves every other board's queue alone. -/
theorem flush_address_ok (bus : Nat → Nat → Int → Option (Nat × Nat)) (a : Nat)
    (s : ManagerState) (pid : PortId)
    (h : routedCfg s.board_config a = some pid) :
    ∃ s', flush_address bus a s =
        .ok (s', (flush_entries a bus ((getPort s pid).write_queue a).reverse []
                    ((getPort s pid).shadow_map a)).1,
             (flush_entries a bus ((getPort s pid).write_queue a).reverse []
                    ((getPort s pid).shadow_map a)).2.1) ∧
      s'.board_config = s.board_config ∧
      s'.enabled_boards = s.enabled_boards ∧
      wq s' a = [] ∧
      (∀ b, ¬ b = a → wq s' b = wq s b) := by
  have hg := get_port_of_routed s.board_config a pid h
  refine ⟨setPort s pid
      { getPort s pid with
        write_queue := fun b => if b = a then [] else (getPort s pid).write_queue b,
        shadow_map := fun b =>
          if b = a then (flush_entries a bus ((getPort s pid).write_queue a).reverse []
            ((getPort s pid).shadow_map a)).2.2
          else (getPort s pid).shadow_map b }, ?_, ?_, ?_, ?_, ?_⟩
  · rw [flush_address, hg]
  · exact setPort_board_config ..
  · exact setPort_enabled_boards ..
  · rw [wq_setPort, h]
    simp only [getPort_setPort_same]
    simp
  · intro b hb
    rw [wq_setPort, wq]
    cases hr : routedCfg s.board_config b with
    | none => rfl
    | some q =>
      simp only
      by_cases hq : q = pid
      · subst hq
        rw [getPort_setPort_same]
        simp [hb]
      · rw [getPort_setPort_other s pid q _ hq]

/-- Flushing a list of distinct, routable boards succeeds; each flushed
board ends with an empty pending list and is paired in the result with its
selected writes, in which the most recent enqueue for each offset wins. -/
theorem flush_boards_ok (bus : Nat → Nat → Int → Option (Nat × Nat)) :
    ∀ (boards : List Nat) (s : ManagerState),
    (∀ a ∈ boards, (routedCfg s.board_config a).isSome = true) →
    boards.Nodup →
    ∃ s' wss fss, flush_boards bus boards s = .ok (s', wss, fss) ∧
      s'.board_config = s.board_config ∧
      s'.enabled_boards = s.enabled_boards ∧
      (∀ b ∈ boards, wq s' b = []) ∧
      (∀ b, b ∉ boards → wq s' b = wq s b) ∧
      (∀ b ∈ boards, ∃ ws, (b, ws) ∈ wss ∧
        ∀ (o : Nat) (v : Int),
          (wq s b).reverse.find? (fun e => e.1 == o) = some (o, v) →
          ws.filter (fun e => e.1 == o) = [(o, v)])
  | [], s, _, _ =>
    ⟨s, [], [], rfl, rfl, rfl, by simp, fun _ _ => rfl, by simp⟩
  | a :: rest, s, hroute, hnd => by
    obtain ⟨pid, hpid⟩ := routed_of_isSome _ _ (hroute a (by simp))
    obtain ⟨s1, hs1, hcfg1, hen1, hqa1, hqo1⟩ := flush_address_ok bus a s pid hpid
    have hroute1 : ∀ b ∈ rest, (routedCfg s1.board_config b).isSome = true := by
      intro b hb
      rw [hcfg1]
      exact hroute b (by simp [hb])
    have hanr : a ∉ rest := (List.nodup_cons.mp hnd).1
    obtain ⟨s2, wss2, fss2, hs2, hcfg2, hen2, hin2, hout2, hws2⟩ :=
      flush_boards_ok bus rest s1 hroute1 hnd.of_cons
    refine ⟨s2, (a, (flush_entries a bus ((getPort s pid).write_queue a).reverse []
        ((getPort s pid).shadow_map a)).1) :: wss2,
      (flush_entries a bus ((getPort s pid).write_queue a).reverse []
        ((getPort s pid).shadow_map a)).2.1 ++ fss2, ?_, by rw [hcfg2, hcfg1],
      by rw [hen2, hen1], ?_, ?_, ?_⟩
    · simp only [flush_boards, hs1, hs2]
    · intro b hb
      rcases List.mem_cons.mp hb with hb | hb
      · subst hb
        rw [hout2 b hanr, hqa1]
      · exact hin2 b hb
    · intro b hb
      have hba : ¬ b = a := fun hba => hb (by simp [hba])
      have hbr : b ∉ rest := fun hbr => hb (by simp [hbr])
      rw [hout2 b hbr, hqo1 b hba]
    · intro b hb
      rcases List.mem_cons.mp hb with hb | hb
      · subst hb
        refine ⟨_, List.mem_cons_self _ _, ?_⟩
        intro o v hfind
        have hwq : wq s b = (getPort s pid).write_queue b := by
          rw [wq, hpid]
        rw [flush_entries_filter]
        rw [hwq] at hfind
        rw [hfind]
        simp
      · obtain ⟨ws, hmem, hfil⟩ := hws2 b hb
        refine ⟨ws, List.mem_cons_of_mem _ hmem, ?_⟩
        intro o v hfind
        apply hfil o v
        have hba : ¬ b = a := fun hba => hanr (hba ▸ hb)
        rw [hqo1 b hba, hfind]

theorem wq_clear (s : ManagerState) (c : Nat) :
    wq { s with left := clear_write_queue s.left, right := clear_write_queue s.right } c
      = [] := by
  rw [wq]
  cases hr : routedCfg s.board_config c with
  | none => simp [hr]
  | some p => cases p <;> simp [hr, getPort, clear_write_queue]

/-- Claim C2: for any offset present in a board's write queue when flush
runs, flush issues exactly one write for that offset, carrying the value
of the last enqueue for it (`find?` on the reversed queue), and after the
flush every pending list is empty. -/
theorem flush_coalesces_last_write (bus : Nat → Nat → Int → Option (Nat × Nat))
    (s : ManagerState) (b o : Nat) (v : Int)
    (hroute : ∀ a ∈ s.enabled_boards, (routedCfg s.board_config a).isSome = true)
    (hnd : s.enabled_boards.Nodup)
    (hb : b ∈ s.enabled_boards)
    (hlast : (wq s b).reverse.find? (fun e => e.1 == o) = some (o, v)) :
    ∃ s' wss fss ws, flush_write_queue bus s = .ok (s', wss, fss) ∧
      (b, ws) ∈ wss ∧
      ws.filter (fun e => e.1 == o) = [(o, v)] ∧
      (∀ c, wq s' c = []) := by
  obtain ⟨s1, wss, fss, hfb, hcfg, hen, hin, hout, hws⟩ :=
    flush_boards_ok bus s.enabled_boards s hroute hnd
  obtain ⟨ws, hmem, hfil⟩ := hws b hb
  refine ⟨{ s1 with
      left := clear_write_queue s1.left
      right := clear_write_queue s1.right },
    wss, fss, ws, ?_, hmem, hfil o v hlast, ?_⟩
  · rw [flush_write_queue, hfb]
  · intro c
    exact wq_clear s1 c

/-- Concrete instance of the coalescing claim: board 1's queue holds two
writes to offset 200 (values 10 then 20) around one to offset 208; the
flush issues exactly one write to offset 200, with value 20. -/
theorem flush_coalesces_last_write_witness :
    ∃ s' wss fss ws, flush_write_queue busW stateQ = .ok (s', wss, fss) ∧
      (1, ws) ∈ wss ∧
      ws.filter (fun e => e.1 == 200) = [(200, 20)] ∧
      (∀ c, wq s' c = []) :=
  flush_coalesces_last_write busW stateQ 1 200 20 (by decide) (by decide) (by decide)
    (by decide)

/-- Claim C4: the per-board flush emits exactly one outbound frame per
selected (winning) write — the transport acknowledgement frame on a bus
response, the `10002` error frame otherwise — for every shadow-cache
content, in particular also when the cache already holds the exact queued
value. -/
theorem flush_frames_per_winning_write (addr : Nat)
    (bus : Nat → Nat → Int → Option (Nat × Nat)) (q : List (Nat × Int))
    (sh : Nat → Option Int) :
    (flush_entries addr bus q.reverse [] sh).2.1 =
      (flush_entries addr bus q.reverse [] sh).1.map (write_response_frame addr bus) :=
  flush_entries_frames addr bus q.reverse [] sh

/-! ### Telemetry framing lemmas -/

theorem recompose_le2 (n : Nat) (h : n < 65536) :
    n % 256 + 256 * (n / 256 % 256) = n := by
  omega

theorem encode_packet_length : ∀ l : List Nat, (encode_packet l).length = 2 * l.length
  | [] => rfl
  | x :: rest => by
    rw [encode_packet, List.length_append, encode_packet_length rest, to_bytes_le2]
    simp
    omega

theorem interleave_offsets_length :
    ∀ (regs : List Nat) (start_offset : Nat),
    (interleave_offsets start_offset regs).length = 2 * regs.length
  | [], _ => rfl
  | r :: rest, start_offset => by
    rw [interleave_offsets]
    simp [interleave_offsets_length rest (start_offset + 1)]
    omega

theorem decode_encode_interleave :
    ∀ (regs : List Nat) (start_offset : Nat),
    (∀ r ∈ regs, r < 65536) →
    start_offset + regs.length ≤ 65536 →
    decode_tpairs (encode_packet (interleave_offsets start_offset regs)) =
      offset_value_pairs start_offset regs
  | [], _, _, _ => rfl
  | r :: rest, start_offset, hr, hs => by
    have hstart : start_offset < 65536 := by
      have := List.length_cons r rest ▸ hs
      omega
    have hrr : r < 65536 := hr r (by simp)
    have ih := decode_encode_interleave rest (start_offset + 1)
      (fun x hx => hr x (by simp [hx]))
      (by have := List.length_cons r rest ▸ hs; omega)
    rw [interleave_offsets, encode_packet, encode_packet, to_bytes_le2, to_bytes_le2]
    simp only [List.cons_append, List.nil_append]
    rw [decode_tpairs, offset_value_pairs, ih, recompose_le2 start_offset hstart,
      recompose_le2 r hrr]

/-- Claim C8: encoding a successful read's telemetry record and decoding
it recovers exactly the address and the (offset, value) sequence in offset
order; encoding a failed read's record decodes to the address with the
reserved `10000`/`10001` pairs carrying the failed range's first and last
offset. -/
theorem telemetry_frame_roundtrip (address start_offset end_offset : Nat)
    (regs : List Nat)
    (ha : address < 65536)
    (hr : ∀ r ∈ regs, r < 65536)
    (hs : start_offset + regs.length ≤ 65536)
    (hs0 : start_offset < 65536)
    (he : end_offset < 65536) :
    decode_frame (encode_packet (telemetry_packet address start_offset regs)) =
      some (address, offset_value_pairs start_offset regs) ∧
    decode_frame (encode_packet (error_packet address start_offset end_offset)) =
      some (address, [(10000, start_offset), (10001, end_offset)]) := by
  constructor
  · have hlen : (encode_packet (telemetry_packet address start_offset regs)).length =
        2 + 2 * (2 * regs.length) := by
      rw [telemetry_packet, encode_packet_length]
      simp [interleave_offsets_length]
      omega
    rw [decode_frame, if_pos (by rw [hlen]; omega)]
    rw [telemetry_packet, encode_packet, to_bytes_le2]
    simp only [List.cons_append, List.nil_append, List.take, List.drop, List.append,
      from_bytes_le_u]
    rw [decode_encode_interleave regs start_offset hr hs, recompose_le2 address ha]
  · rw [error_packet]
    rw [show encode_packet [address, 10000, start_offset, 10001, end_offset] =
        address % 256 :: (address / 256 % 256) :: (10000 % 256) :: (10000 / 256 % 256) ::
        start_offset % 256 :: (start_offset / 256 % 256) :: (10001 % 256) ::
        (10001 / 256 % 256) :: end_offset % 256 :: (end_offset / 256 % 256) :: []
      from rfl]
    rw [decode_frame, if_pos (by simp)]
    simp only [List.take, List.drop, from_bytes_le_u, decode_tpairs]
    rw [recompose_le2 address ha, recompose_le2 start_offset hs0,
      recompose_le2 end_offset he]

/-- Concrete instance of the framing round trip, matching the spec's
example: address 5, offsets 100..102, values 10, 20, 30. -/
theorem telemetry_frame_roundtrip_witness :
    decode_frame (encode_packet (telemetry_packet 5 100 [10, 20, 30])) =
      some (5, [(100, 10), (101, 20), (102, 30)]) ∧
    decode_frame (encode_packet (error_packet 5 100 102)) =
      some (5, [(10000, 100), (10001, 102)]) :=
  telemetry_frame_roundtrip 5 100 102 [10, 20, 30] (by decide) (by decide) (by decide)
    (by decide) (by decide)

/-! ### Inbound parsing lemmas -/

theorem parse_pairs_ne_nil (x : Nat) (t : List Nat) : ¬ parse_pairs (x :: t) = [] := by
  match t with
  | [] => simp [parse_pairs]
  | [c1] => simp [parse_pairs]
  | [c1, c2] => simp [parse_pairs]
  | c1 :: c2 :: c3 :: rest => simp [parse_pairs]

/-- A packet tail consisting of whole 4-byte pairs plus a trailing 2-byte
field parses to a list containing the pair (trailing offset, 0): the
value slice is empty and decodes to 0. -/
theorem parse_pairs_trailing_mem :
    ∀ (u : List Nat) (b0 b1 : Nat), u.length % 4 = 0 →
    (b0 + 256 * b1, 0) ∈ parse_pairs (u ++ [b0, b1])
  | [], b0, b1, _ => by
    simp [parse_pairs, from_bytes_le_u]
  | [c0], _, _, h => by simp at h
  | [c0, c1], _, _, h => by simp at h
  | [c0, c1, c2], _, _, h => by simp at h
  | c0 :: c1 :: c2 :: c3 :: u, b0, b1, h => by
    have hu : u.length % 4 = 0 := by
      simp only [List.length_cons] at h
      omega
    have ih := parse_pairs_trailing_mem u b0 b1 hu
    simp only [List.cons_append, parse_pairs]
    exact List.mem_cons_of_mem _ ih

theorem sanity_check_command_zero (o : Nat) : sanity_check_command o 0 = (o, 0) := by
  rw [sanity_check_command]
  split
  · rw [if_neg (by decide), if_neg (by decide)]
  · rfl

/-- Processing the decoded pairs of a non-broadcast packet appends every
sanitized pair to the addressed board's queue and reports a valid message
when at least one pair was present. -/
theorem process_pairs_queue (addr : Nat) (haddr : ¬ addr = 0) :
    ∀ (ps : List (Nat × Int)) (s : ManagerState) (flag : Bool),
    (routedCfg s.board_config addr).isSome = true →
    ∃ s', process_pairs addr (s, flag) ps =
        .ok (s', if ps.isEmpty then flag else true) ∧
      s'.board_config = s.board_config ∧
      s'.enabled_boards = s.enabled_boards ∧
      wq s' addr = wq s addr ++ ps.map (fun p => sanity_check_command p.1 p.2)
  | [], s, flag, _ => ⟨s, by rw [process_pairs]; rfl, rfl, rfl, by simp⟩
  | p :: rest, s, flag, hroute => by
    obtain ⟨pid, hpid⟩ := routed_of_isSome _ _ hroute
    obtain ⟨s1, hs1, hcfg1, hen1, _, _, _, hwa1, _⟩ :=
      append_write_ok s addr (sanity_check_command p.1 p.2) pid hpid
    have hroute1 : (routedCfg s1.board_config addr).isSome = true := by
      rw [hcfg1, hpid]
      rfl
    obtain ⟨s2, hs2, hcfg2, hen2, hw2⟩ :=
      process_pairs_queue addr haddr rest s1 true hroute1
    refine ⟨s2, ?_, hcfg2.trans hcfg1, hen2.trans hen1, ?_⟩
    · rw [process_pairs, process_pair, if_neg haddr, hs1]
      simp only [hs2]
      simp
    · rw [hw2, hwa1]
      simp

/-- Claim C9: an inbound frame of even length not of the shape address
plus whole 4-byte pairs (length ≡ 0, not 2, mod 4) is not dropped: for an
enabled non-broadcast board it is processed as a valid message, every
parsed pair is queued, and the trailing 2-byte field is queued as the pair
(trailing offset, 0) — the missing value bytes decode to 0. -/
theorem even_frame_trailing_pair_queued (s : ManagerState) (a0 a1 b0 b1 : Nat)
    (u : List Nat)
    (hu : u.length % 4 = 0)
    (hudp : s.udp_input_enabled = true)
    (haddr0 : ¬ a0 + 256 * a1 = 0)
    (haddrhb : ¬ a0 + 256 * a1 = HEARTBEAT_ADDRESS)
    (hmem : a0 + 256 * a1 ∈ s.enabled_boards)
    (hroute : (routedCfg s.board_config (a0 + 256 * a1)).isSome = true) :
    (a0 :: a1 :: (u ++ [b0, b1])).length % 2 = 0 ∧
    ¬ (a0 :: a1 :: (u ++ [b0, b1])).length % 4 = 2 ∧
    ∃ s', process_one_packet s (a0 :: a1 :: (u ++ [b0, b1])) = .ok (s', true) ∧
      wq s' (a0 + 256 * a1) = wq s (a0 + 256 * a1) ++
        (parse_pairs (u ++ [b0, b1])).map (fun p => sanity_check_command p.1 p.2) ∧
      (b0 + 256 * b1, 0) ∈ wq s' (a0 + 256 * a1) := by
  have hlen : (a0 :: a1 :: (u ++ [b0, b1])).length = u.length + 4 := by
    simp [List.length_append]
  refine ⟨by omega, by omega, ?_⟩
  have htake : (a0 :: a1 :: (u ++ [b0, b1])).take 2 = [a0, a1] := rfl
  have haddr : from_bytes_le_u [a0, a1] = a0 + 256 * a1 := rfl
  have hdrop : (a0 :: a1 :: (u ++ [b0, b1])).drop 2 = u ++ [b0, b1] := rfl
  have h2 : (a0 :: a1 :: (u ++ [b0, b1])).length % 2 = 0 := by omega
  have hstep : process_one_packet s (a0 :: a1 :: (u ++ [b0, b1])) =
      process_pairs (a0 + 256 * a1) (s, false) (parse_pairs (u ++ [b0, b1])) := by
    simp only [process_one_packet, htake, haddr, hdrop]
    rw [if_pos hudp, if_neg (not_not_intro h2), if_neg haddrhb,
      if_pos (List.mem_append.mpr (Or.inl hmem))]
  obtain ⟨s', hps, hcfg, hen, hwq⟩ := process_pairs_queue (a0 + 256 * a1) haddr0
    (parse_pairs (u ++ [b0, b1])) s false hroute
  have hne : ¬ parse_pairs (u ++ [b0, b1]) = [] := by
    cases u with
    | nil => exact parse_pairs_ne_nil b0 [b1]
    | cons c rest => exact parse_pairs_ne_nil c (rest ++ [b0, b1])
  have hflag : (if (parse_pairs (u ++ [b0, b1])).isEmpty then false else true) = true := by
    cases hpp : parse_pairs (u ++ [b0, b1]) with
    | nil => exact absurd hpp hne
    | cons q qs => rfl
  refine ⟨s', ?_, hwq, ?_⟩
  · rw [hstep, hps, hflag]
  · rw [hwq]
    refine List.mem_append.mpr (Or.inr ?_)
    exact List.mem_map.mpr ⟨(b0 + 256 * b1, 0), parse_pairs_trailing_mem u b0 b1 hu,
      sanity_check_command_zero _⟩

/-- Concrete instance of the trailing-pair claim: the 4-byte frame
`[1, 0, 210, 0]` (address 1, then the lone field 210) queues (210, 0) for
board 1. -/
theorem even_frame_trailing_pair_queued_witness :
    (1 :: 0 :: (([] : List Nat) ++ [210, 0])).length % 2 = 0 ∧
    ¬ (1 :: 0 :: (([] : List Nat) ++ [210, 0])).length % 4 = 2 ∧
    ∃ s', process_one_packet stateW (1 :: 0 :: (([] : List Nat) ++ [210, 0])) =
        .ok (s', true) ∧
      wq s' (1 + 256 * 0) = wq stateW (1 + 256 * 0) ++
        (parse_pairs (([] : List Nat) ++ [210, 0])).map
          (fun p => sanity_check_command p.1 p.2) ∧
      (210 + 256 * 0, 0) ∈ wq s' (1 + 256 * 0) :=
  even_frame_trailing_pair_queued stateW 1 0 210 0 [] (by decide) rfl (by decide)
    (by decide) (by decide) (by decide)

/-- Claim C7: values at the motor-setpoint offset with magnitude above the
configured limit are clamped to `sign(v) * limit` before queueing, values
within the limit pass through unchanged, and values at every other offset
are left unmodified by the sanitizer. -/
theorem sanity_check_command_clamps (o : Nat) (v : Int) :
    (o = MB_MOTOR_SETPOINT →
      (MAX_MOTOR_SPEED < |v| →
        sanity_check_command o v = (o, Int.sign v * MAX_MOTOR_SPEED)) ∧
      (|v| ≤ MAX_MOTOR_SPEED → sanity_check_command o v = (o, v))) ∧
    (o ≠ MB_MOTOR_SETPOINT → sanity_check_command o v = (o, v)) := by
  constructor
  · intro ho
    subst ho
    constructor
    · intro habs
      rcases lt_or_le MAX_MOTOR_SPEED v with hv | hv
      · have hsign : Int.sign v = 1 := by
          apply Int.sign_eq_one_of_pos
          have : (0 : Int) < MAX_MOTOR_SPEED := by decide
          omega
        simp only [sanity_check_command, if_pos rfl, if_pos hv, hsign]
        norm_num
      · have hvneg : v < -MAX_MOTOR_SPEED := by
          rcases abs_cases v with ⟨h1, _⟩ | ⟨h1, _⟩ <;> omega
        have hsign : Int.sign v = -1 := by
          apply Int.sign_eq_neg_one_of_neg
          have : (0 : Int) < MAX_MOTOR_SPEED := by decide
          omega
        have hnot : ¬ v > MAX_MOTOR_SPEED := by omega
        simp only [sanity_check_command, if_pos rfl, if_neg hnot, if_pos hvneg, hsign]
        norm_num
    · intro habs
      have h1 : ¬ v > MAX_MOTOR_SPEED := by
        rcases abs_cases v with ⟨h1, _⟩ | ⟨h1, _⟩ <;> omega
      have h2 : ¬ v < -MAX_MOTOR_SPEED := by
        rcases abs_cases v with ⟨h1, _⟩ | ⟨h1, _⟩ <;> omega
      simp [sanity_check_command, h1, h2]
  · intro ho
    simp [sanity_check_command, ho]

/-- Concrete instances of the sanitizer claim: an over-limit positive and
negative setpoint, an in-range setpoint, and a non-setpoint offset. -/
theorem sanity_check_command_clamps_witness :
    sanity_check_command 200 100 = (200, 60) ∧
    sanity_check_command 200 (-100) = (200, -60) ∧
    sanity_check_command 200 30 = (200, 30) ∧
    sanity_check_command 208 100 = (208, 100) := by
  refine ⟨?_, ?_, ?_, ?_⟩
  · have h := ((sanity_check_command_clamps 200 100).1 rfl).1 (by decide)
    simpa using h
  · have h := ((sanity_check_command_clamps 200 (-100)).1 rfl).1 (by decide)
    simpa using h
  · exact ((sanity_check_command_clamps 200 30).1 rfl).2 (by decide)
  · exact (sanity_check_command_clamps 208 100).2 (by decide)

end Uki
